import Mathlib

/-!
Verification of the PyTorch-ScalableFHVAE preprocessing, statistic-estimation
and checkpointing subsystem (`utils.py`, `prepare_numpy_data.py`,
`eval_model.py`), via a shallow embedding in Lean 4.

Modelling conventions:
* Python floats are modelled as exact rationals (`ℚ`); float literals such as
  `1e-12`, `0.025` become the corresponding rationals.
* Calls into external libraries (`librosa.core.stft`,
  `librosa.feature.melspectrogram`, `librosa.feature.rmse`, `np.log`,
  `np.exp`, complex magnitude `np.abs`) are uninterpreted functions bundled
  in a `Lib` structure; theorems quantify over all such interpretations.
* 2-D numpy arrays are `List (List ℚ)` (row-major, rectangular on the
  domain numpy actually produces).
* Python exceptions are `Except` errors; file side effects (manifest lines,
  checkpoint files) are made explicit in return values.
-/

/-- Python `int()` applied to a rational: truncation toward zero.
Embeds the `int(sr * hop_t)` / `int(sr * win_t)` conversions. -/
def pyint (q : ℚ) : ℤ :=
  if 0 ≤ q then ⌊q⌋ else -⌊-q⌋

/-- The sample-count conversion `int(rate * seconds)` used by
`AudioUtils.stft`, `AudioUtils.energy_vad` and `generate_feat`. -/
def sample_count (sr : ℕ) (t : ℚ) : ℤ :=
  pyint ((sr : ℚ) * t)

/-- The pre-emphasis step of `AudioUtils.stft` (utils.py lines 181-182):
`y - preemphasis * np.concatenate([[0], y[:-1]], 0)` guarded by
`preemphasis > 1e-12`. -/
def preemphasize (r : ℚ) (y : List ℚ) : List ℚ :=
  if r > 1 / 1000000000000 then
    List.zipWith (fun a b => a - r * b) y (0 :: y.dropLast)
  else
    y

/-- Uninterpreted external primitives (librosa / numpy). `C` is the type of
complex STFT bin values. -/
structure Lib (C : Type) where
  /-- `librosa.core.stft y n_fft hop_length win_length window`. -/
  core_stft : List ℚ → ℤ → ℤ → ℤ → String → List (List C)
  /-- `np.abs` on one complex bin (magnitude). -/
  absq : C → ℚ
  /-- `np.log` on one entry. -/
  logq : ℚ → ℚ
  /-- `np.exp` on one entry. -/
  expq : ℚ → ℚ
  /-- `librosa.feature.melspectrogram sr S n_fft hop_length n_mels norm`. -/
  melspectrogram : ℕ → List (List ℚ) → ℤ → ℤ → ℕ → String → List (List ℚ)
  /-- `librosa.feature.rmse y frame_length hop_length`. -/
  rmse : List ℚ → ℤ → ℤ → List ℚ

/-- `np.log` applied elementwise to a matrix followed by the in-place floor
clamp `spec[spec < log_floor] = log_floor`. -/
def log_clamp (logq : ℚ → ℚ) (log_floor : ℚ) (spec : List (List ℚ)) :
    List (List ℚ) :=
  (spec.map (List.map logq)).map
    (List.map (fun v => if v < log_floor then log_floor else v))

namespace AudioUtils

/-- `AudioUtils.stft` (utils.py lines 156-187). -/
def stft {C : Type} (lib : Lib C) (y : List ℚ) (sr : ℕ)
    (n_fft : ℤ := 400) (hop_t : ℚ := 1/100) (win_t : ℚ := 1/40)
    (window : String := "hamming") (preemphasis : ℚ := 97/100) :
    List (List C) :=
  lib.core_stft (preemphasize preemphasis y) n_fft
    (sample_count sr hop_t) (sample_count sr win_t) window

/-- `AudioUtils.rstft` (utils.py lines 189-223). -/
def rstft {C : Type} (lib : Lib C) (y : List ℚ) (sr : ℕ)
    (n_fft : ℤ := 400) (hop_t : ℚ := 1/100) (win_t : ℚ := 1/40)
    (window : String := "hamming") (preemphasis : ℚ := 97/100)
    (log : Bool := true) (log_floor : ℚ := -50) : List (List ℚ) :=
  let spec := stft lib y sr n_fft hop_t win_t window preemphasis
  let spec := spec.map (List.map lib.absq)
  if log then log_clamp lib.logq log_floor spec else spec

/-- `AudioUtils.to_melspec` (utils.py lines 225-272). -/
def to_melspec {C : Type} (lib : Lib C) (y : List ℚ) (sr : ℕ)
    (n_fft : ℤ := 400) (hop_t : ℚ := 1/100) (win_t : ℚ := 1/40)
    (window : String := "hamming") (preemphasis : ℚ := 97/100)
    (n_mels : ℕ := 80) (log : Bool := true) (norm_mel : String := "slaney")
    (log_floor : ℚ := -20) : List (List ℚ) :=
  let spec := rstft lib y sr n_fft hop_t win_t window preemphasis false
  let hop_length := sample_count sr hop_t
  let melspec := lib.melspectrogram sr spec n_fft hop_length n_mels norm_mel
  if log then log_clamp lib.logq log_floor melspec else melspec

/-- `AudioUtils.energy_vad` (utils.py lines 274-300). -/
def energy_vad {C : Type} (lib : Lib C) (y : List ℚ) (sr : ℕ)
    (hop_t : ℚ := 1/100) (win_t : ℚ := 1/40) (th_ratio : ℚ := 13/25) :
    List ℤ :=
  let hop_length := sample_count sr hop_t
  let win_length := sample_count sr win_t
  let e := lib.rmse y win_length hop_length
  let th := th_ratio * (e.sum / e.length)
  e.map (fun v => if v > th then 1 else 0)

end AudioUtils

/-- `np.transpose` on a 2-D array: entry `(j, i)` of the result is entry
`(i, j)` of the input.  On the rectangular arrays numpy produces, the
`getD` default is never reached. -/
def np_transpose (M : List (List ℚ)) : List (List ℚ) :=
  (List.range (M.headD []).length).map (fun j => M.map (fun row => row.getD j 0))

/-- `generate_feat` (prepare_numpy_data.py lines 14-50).  Note the third
positional argument of both calls is `int(sample_rate * win_t)`, passed as
`n_fft`. -/
def generate_feat {C : Type} (lib : Lib C) (ftype : String)
    (audio_data : List ℚ) (sample_rate : ℕ) (win_t : ℚ) (hop_t : ℚ)
    (n_mels : ℕ) : List (List ℚ) :=
  if ftype = "fbank" then
    np_transpose
      (AudioUtils.to_melspec lib audio_data sample_rate
        (sample_count sample_rate win_t) hop_t win_t "hamming" (97/100) n_mels)
  else
    np_transpose
      (AudioUtils.rstft lib audio_data sample_rate
        (sample_count sample_rate win_t) hop_t win_t)

/-- `torch.mean` of a 1-D tensor, as the arithmetic mean of a list.
An empty list gives `0/0 = 0` in `ℚ`. -/
def torch_mean (l : List ℚ) : ℚ :=
  l.sum / l.length

/-- `check_best` (utils.py lines 14-17). -/
def check_best (val_lower_bound : List ℚ) (best_val_lb : ℚ) : Bool :=
  if torch_mean val_lower_bound > best_val_lb then true else false

/-- The five constructor parameters stored in a checkpoint:
`(z1_hus, z2_hus, z1_dim, z2_dim, x_hus)`. -/
def ModelParams : Type :=
  List ℕ × List ℕ × ℕ × ℕ × List ℕ

/-- A PyTorch model of the FHVAE family, as far as the checkpoint and
estimator code observes it.  `Θ` is the type of state dicts (weights). -/
structure TorchModel (Θ : Type) where
  /-- The model type tag, the `self.model` attribute read by `save_checkpoint`. -/
  model : String
  z1_hus : List ℕ
  z2_hus : List ℕ
  z1_dim : ℕ
  z2_dim : ℕ
  x_hus : List ℕ
  /-- Current weights; `state_dict()` returns it, `load_state_dict` replaces it. -/
  state_dict : Θ
  /-- Training-mode flag; `eval()` clears it. -/
  training : Bool

/-- `FHVAE(*model_params)`: freshly constructed model with the given
parameters and some initial (default) weights. -/
def FHVAE {Θ : Type} [Inhabited Θ] (p : ModelParams) : TorchModel Θ :=
  ⟨"fhvae", p.1, p.2.1, p.2.2.1, p.2.2.2.1, p.2.2.2.2, default, true⟩

/-- `SimpleFHVAE(*model_params)`. -/
def SimpleFHVAE {Θ : Type} [Inhabited Θ] (p : ModelParams) : TorchModel Θ :=
  ⟨"simple_fhvae", p.1, p.2.1, p.2.2.1, p.2.2.2.1, p.2.2.2.2, default, true⟩

/-- Python runtime errors surfaced by the embedded code. -/
inductive PyError where
  | attributeError (msg : String)
deriving DecidableEq, Repr

/-- The record assembled by `save_checkpoint` and consumed by
`load_checkpoint_file`.  `Θ`: state dicts, `O`: optimizer state dicts,
`S`: summary lists, `V`: values dicts. -/
structure Checkpoint (Θ O S V : Type) where
  best_val_lb : ℚ
  best_epoch : ℕ
  epoch : ℕ
  model_type : String
  model_params : ModelParams
  optimizer : O
  state_dict : Θ
  summary_vals : S
  values : V

/-- `model.load_state_dict(sd, strict=strict_mode)` where `model` may be an
actual model or — on the non-standard fallback path of
`load_checkpoint_file` — the raw type-tag string, on which the attribute
access raises `AttributeError`. -/
def load_state_dict {Θ : Type} :
    TorchModel Θ ⊕ String → Θ → Bool → Except PyError (TorchModel Θ ⊕ String)
  | .inl m, sd, _ => .ok (.inl { m with state_dict := sd })
  | .inr tag, _, _ =>
      .error (.attributeError
        ("str object " ++ tag ++ " has no attribute load_state_dict"))

/-- `load_checkpoint_file` (utils.py lines 63-102).  Returns the tuple
`(model, values, optim_state, start_epoch, best_val_lb, summary_list)`;
fields not restored are `none`. -/
def load_checkpoint_file {Θ O S V : Type} [Inhabited Θ]
    (checkpoint : Checkpoint Θ O S V) (finetune : Bool) :
    Except PyError
      ((TorchModel Θ ⊕ String) × Option V × Option O × Option ℕ × Option ℚ × Option S) := do
  let model_type := checkpoint.model_type
  let model_params := checkpoint.model_params
  let (model, strict_mode) : (TorchModel Θ ⊕ String) × Bool :=
    if model_type = "fhvae" then (.inl (FHVAE model_params), true)
    else if model_type = "simple_fhvae" then (.inl (SimpleFHVAE model_params), true)
    else (.inr model_type, false)
  let model ← load_state_dict model checkpoint.state_dict strict_mode
  if !finetune then
    return (model, some checkpoint.values, some checkpoint.optimizer,
      some (checkpoint.epoch + 1 + 1), some checkpoint.best_val_lb,
      some checkpoint.summary_vals)
  else
    return (model, none, none, none, none, none)

/-- A run directory: an association of file names to checkpoint records. -/
abbrev Dir (Θ O S V : Type) : Type :=
  List (String × Checkpoint Θ O S V)

/-- Writing a file (`torch.save` / `shutil.copyfile`): overwrite the entry
with that name if present, otherwise add it. -/
def writeFile {Θ O S V : Type} : Dir Θ O S V → String → Checkpoint Θ O S V →
    Dir Θ O S V
  | [], name, c => [(name, c)]
  | p :: t, name, c =>
      if p.1 = name then (name, c) :: t else p :: writeFile t name c

/-- `save_checkpoint` (utils.py lines 116-152), with the run directory made
explicit: returns the directory after `torch.save` and the conditional
`shutil.copyfile` duplication under the `best_model_` name. -/
def save_checkpoint {Θ O S V : Type} (model : TorchModel Θ) (optimizer : O)
    (summary_list : S) (values_dict : V) (run_info : String) (epoch : ℕ)
    (best_epoch : ℕ) (val_lower_bound : ℚ) (best_val_lb : ℚ)
    (checkpoint_dir : Dir Θ O S V) : Dir Θ O S V :=
  let checkpoint : Checkpoint Θ O S V :=
    { best_val_lb := best_val_lb
      best_epoch := best_epoch
      epoch := epoch
      model_type := model.model
      model_params := (model.z1_hus, model.z2_hus, model.z1_dim, model.z2_dim, model.x_hus)
      optimizer := optimizer
      state_dict := model.state_dict
      summary_vals := summary_list
      values := values_dict }
  let f_str := model.model ++ "_" ++ run_info ++ "_e" ++ toString epoch
  let f_path := f_str ++ ".tar"
  let d := writeFile checkpoint_dir f_path checkpoint
  if best_epoch = epoch then
    writeFile d ("best_model_" ++ f_str ++ ".tar") checkpoint
  else
    d

/-- Lookup of the first binding of a key in an association list
(a Python dict, whose keys are unique). -/
def dd_find {ι : Type} [DecidableEq ι] : List (ι × ℚ) → ι → Option ℚ
  | [], _ => none
  | (a, b) :: t, k => if a = k then some b else dd_find t k

/-- `defaultdict(float)` update `table[k] += v`: add `v` to the existing
binding, or bind `k` to `0 + v` if absent. -/
def dd_incr {ι : Type} [DecidableEq ι] : List (ι × ℚ) → ι → ℚ → List (ι × ℚ)
  | [], k, v => [(k, v)]
  | (a, b) :: t, k, v =>
      if a = k then (a, b + v) :: t else (a, b) :: dd_incr t k v

/-- One batch yielded by the loader: `(idxs, features, nsegs)`. -/
structure Batch (ι F N : Type) where
  idxs : List ι
  features : F
  nsegs : N

/-- The data loader: its batches and `len(loader.dataset)`. -/
structure Loader (ι F N : Type) where
  batches : List (Batch ι F N)
  dataset_len : ℕ

/-- The model as observed by `estimate_mu2_dict`: a forward pass
`model(features, idxs, len(loader.dataset), nsegs)` after which `qz2_x[0]`
holds one z2 latent code per batch element (modelled per component, so a
code is one `ℚ`), plus the prior log-variances `pz2[1]` and `pmu2[1]` and
the training-mode flag toggled by `eval()`. -/
structure EstModel (ι F N : Type) where
  qz2_x : F → List ι → ℕ → N → List ℚ
  pz2_logvar : ℚ
  pmu2_logvar : ℚ
  training : Bool

/-- The inner accumulation loop of `estimate_mu2_dict`:
`for _y, _z2 in zip(idxs, z2): z2_sum_table[_y] += _z2; nseg_table[_y] += 1`,
acting on the pair `(nseg_table, z2_sum_table)`. -/
def accum_pairs {ι : Type} [DecidableEq ι] :
    List (ι × ℚ) × List (ι × ℚ) → List (ι × ℚ) → List (ι × ℚ) × List (ι × ℚ)
  | tables, [] => tables
  | (nseg, zsum), (y, z) :: ps =>
      accum_pairs (dd_incr nseg y 1, dd_incr zsum y z) ps

/-- `estimate_mu2_dict` (utils.py lines 45-60).  `expq` is `np.exp`.
Besides the dictionary, the model after the `model.eval()` call is
returned, to expose that side effect.  `num_seqs` is accepted and, as in
the source, unused. -/
def estimate_mu2_dict {ι F N : Type} [DecidableEq ι] (expq : ℚ → ℚ)
    (model : EstModel ι F N) (loader : Loader ι F N) (num_seqs : ℕ) :
    List (ι × ℚ) × EstModel ι F N :=
  let model := { model with training := false }
  let tables := loader.batches.foldl
    (fun tabs b =>
      accum_pairs tabs
        (b.idxs.zip (model.qz2_x b.features b.idxs loader.dataset_len b.nsegs)))
    ([], [])
  let nseg_table := tables.1
  let z2_sum_table := tables.2
  let r := expq model.pz2_logvar / expq model.pmu2_logvar
  (nseg_table.map
      (fun p => (p.1, ((dd_find z2_sum_table p.1).getD 0) / (p.2 + r))),
    model)

/-- The observable outcome of one `prepare_numpy` manifest pass: the lines
written to `feats.scp` and `len.scp`, the running count, and the raised
error if any (lines written before the raise stay written). -/
structure PrepResult where
  featlines : List String
  lenlines : List String
  count : ℕ
  err : Option String
deriving DecidableEq, Repr

/-- The per-line loop of `prepare_numpy` (prepare_numpy_data.py lines
106-124).  `load path sr?` is `librosa.load(path, sample_rate, mono=True)`;
`lines` are the parsed `(seq, path)` pairs of `wav.scp`; `sr?` is the
current `sample_rate` (`none` when not pinned); `i` is the enumeration
index. -/
def prepare_numpy_lines {C : Type} (lib : Lib C)
    (load : String → Option ℕ → List ℚ × ℕ) (ftype : String)
    (win_t hop_t : ℚ) (n_mels : ℕ) (set_path : String) :
    List (String × String) → Option ℕ → ℕ → PrepResult
  | [], _, i => ⟨[], [], i, none⟩
  | (seq, path) :: rest, sr?, i =>
      let y_sr := load path sr?
      let _sr := y_sr.2
      if sr?.getD _sr ≠ _sr then
        ⟨[], [], i,
          some ("Inconsistent sample rate (" ++ toString (sr?.getD _sr) ++
            " != " ++ toString _sr ++ ".")⟩
      else
        let sample_rate := _sr
        let feat := generate_feat lib ftype y_sr.1 sample_rate win_t hop_t n_mels
        let np_path := set_path ++ "/" ++ seq ++ ".npy"
        let r := prepare_numpy_lines lib load ftype win_t hop_t n_mels set_path
          rest (some sample_rate) (i + 1)
        ⟨(seq ++ " " ++ np_path) :: r.featlines,
          (seq ++ " " ++ toString feat.length) :: r.lenlines,
          r.count, r.err⟩

/-- A concrete interpretation of the external primitives, used to
instantiate universally quantified theorems: `core_stft` reports the hop
and window sample counts it was handed, the scalar functions are simple
total functions, `melspectrogram` passes the spectrogram through and
`rmse` passes the signal through. -/
def libProbe : Lib ℚ where
  core_stft := fun _ _ hop win _ => [[(hop : ℚ), (win : ℚ)]]
  absq := id
  logq := fun v => v - 1
  expq := fun v => v + 1
  melspectrogram := fun _ S _ _ _ _ => S
  rmse := fun y _ _ => y

/-- Claim C10: `check_best` returns `True` iff the mean of the current
validation lower bound strictly exceeds the best value so far; a value
exactly equal to the current best is not promoted. -/
theorem check_best_strict_iff (v : List ℚ) (b : ℚ) :
    (check_best v b = true ↔ torch_mean v > b) ∧
      check_best v (torch_mean v) = false := by
  constructor
  · unfold check_best
    split
    · rename_i h
      simp [h]
    · rename_i h
      simp [h]
  · unfold check_best
    simp

/-- Counterexample to claim C5: at rate 11025 and window 0.025 s the
window sample count handed to the underlying transform by
`AudioUtils.stft` is `int(11025 * 0.025) = 275`, while rounding to the
nearest integer gives 276. -/
theorem sample_count_round_counterexample :
    AudioUtils.stft libProbe [] 11025 400 (1/100) (25/1000) "hamming" 0 =
        [[110, 275]] ∧
      round ((11025 : ℚ) * (25/1000)) = 276 ∧
      sample_count 11025 (25/1000) ≠ round ((11025 : ℚ) * (25/1000)) := by
  refine ⟨?_, ?_, ?_⟩
  · show [[((sample_count 11025 (1/100) : ℤ) : ℚ), ((sample_count 11025 (25/1000) : ℤ) : ℚ)]] =
      [[110, 275]]
    norm_num [sample_count, pyint]
  · rw [round_eq]
    norm_num
  · rw [round_eq]
    norm_num [sample_count, pyint]

/-- Claim C5 (amended): the feature-extraction and VAD routines convert a
duration in seconds to a sample count by truncation `int(rate * seconds)`
— equal to `⌊rate * seconds⌋` for nonnegative durations, not to
round-to-nearest — and use that count as the hop length and window
length. -/
theorem sample_count_truncates (sr : ℕ) (t : ℚ) (h : 0 ≤ t) :
    sample_count sr t = ⌊(sr : ℚ) * t⌋ ∧
    (∀ (C : Type) (lib : Lib C) (y : List ℚ) (n_fft : ℤ)
        (hop_t win_t : ℚ) (window pre : _),
      AudioUtils.stft lib y sr n_fft hop_t win_t window pre =
        lib.core_stft (preemphasize pre y) n_fft (sample_count sr hop_t)
          (sample_count sr win_t) window) ∧
    (∀ (C : Type) (lib : Lib C) (y : List ℚ) (hop_t win_t th_ratio : ℚ),
      AudioUtils.energy_vad lib y sr hop_t win_t th_ratio =
        (lib.rmse y (sample_count sr win_t) (sample_count sr hop_t)).map
          (fun v =>
            if v > th_ratio *
                ((lib.rmse y (sample_count sr win_t) (sample_count sr hop_t)).sum /
                  (lib.rmse y (sample_count sr win_t) (sample_count sr hop_t)).length)
            then 1 else 0)) := by
  refine ⟨?_, fun _ _ _ _ _ _ _ _ => rfl, fun _ _ _ _ _ _ => rfl⟩
  rw [sample_count, pyint, if_pos]
  positivity

/-- Witness for `sample_count_truncates` at rate 16000 and 0.01 s. -/
theorem sample_count_truncates_witness :
    (0 : ℚ) ≤ 1/100 ∧ sample_count 16000 (1/100) = ⌊(16000 : ℚ) * (1/100)⌋ :=
  ⟨by norm_num, (sample_count_truncates 16000 (1/100) (by norm_num)).1⟩

/-- Claim C6: inside `AudioUtils.stft`, pre-emphasis is applied iff the
coefficient exceeds `1e-12` (at exactly `1e-12` or below the signal passes
through unchanged), and when applied the output keeps `y[0]` and maps
`y[t]` to `y[t] - r * y[t-1]` for `t ≥ 1`. -/
theorem stft_preemphasis_spec (r : ℚ) (y : List ℚ) :
    (∀ (C : Type) (lib : Lib C) (sr : ℕ) (n_fft : ℤ)
        (hop_t win_t : ℚ) (window : String),
      AudioUtils.stft lib y sr n_fft hop_t win_t window r =
        lib.core_stft (preemphasize r y) n_fft (sample_count sr hop_t)
          (sample_count sr win_t) window) ∧
    (r ≤ 1 / 1000000000000 → preemphasize r y = y) ∧
    (1 / 1000000000000 < r →
      (preemphasize r y)[0]? = y[0]? ∧
      ∀ t : ℕ, (preemphasize r y)[t + 1]? =
        (y[t + 1]?).bind (fun a => (y[t]?).map (fun b => a - r * b))) := by
  refine ⟨fun _ _ _ _ _ _ _ => rfl, ?_, ?_⟩
  · intro h
    rw [preemphasize, if_neg (not_lt.mpr h)]
  · intro h
    rw [preemphasize, if_pos h]
    constructor
    · cases y with
      | nil => rfl
      | cons a t => simp
    · intro t
      rw [List.getElem?_zipWith', List.getElem?_cons_succ,
        List.dropLast_eq_take, List.getElem?_take]
      rcases hy : y[t + 1]? with _ | a
      · simp
      · have ht : t + 1 < y.length := by
          by_contra hc
          push_neg at hc
          rw [List.getElem?_eq_none hc] at hy
          cases hy
        rw [if_pos (by omega : t < y.length - 1),
          List.getElem?_eq_getElem (by omega : t < y.length)]
        simp

/-- Witness for `stft_preemphasis_spec`: at the boundary `r = 1e-12` the
signal is unchanged, and at `r = 1/2` the entries follow the recurrence. -/
theorem stft_preemphasis_spec_witness :
    (preemphasize (1 / 1000000000000) [3, 5] = [3, 5]) ∧
      (preemphasize (1/2) [3, 5])[0]? = ([3, 5] : List ℚ)[0]? ∧
      (preemphasize (1/2) [3, 5])[1]? =
        (([3, 5] : List ℚ)[1]?).bind
          (fun a => (([3, 5] : List ℚ)[0]?).map (fun b => a - (1/2) * b)) :=
  ⟨(stft_preemphasis_spec (1 / 1000000000000) [3, 5]).2.1 (by norm_num),
    ((stft_preemphasis_spec (1/2) [3, 5]).2.2 (by norm_num)).1,
    ((stft_preemphasis_spec (1/2) [3, 5]).2.2 (by norm_num)).2 0⟩

/-- Claim C1: for a recognized model type tag, loading with
`finetune=False` resumes at the stored epoch plus 2 and restores the
optimizer state, best validation lower bound and summary/value histories;
with `finetune=True` those tuple slots are all `none` while the model
weights are restored either way. -/
theorem load_checkpoint_file_spec {Θ O S V : Type} [Inhabited Θ]
    (c : Checkpoint Θ O S V)
    (h : c.model_type = "fhvae" ∨ c.model_type = "simple_fhvae") :
    ∃ m : TorchModel Θ, m.model = c.model_type ∧ m.state_dict = c.state_dict ∧
      load_checkpoint_file c false =
        .ok (.inl m, some c.values, some c.optimizer, some (c.epoch + 2),
          some c.best_val_lb, some c.summary_vals) ∧
      load_checkpoint_file c true = .ok (.inl m, none, none, none, none, none) := by
  rcases h with h | h
  · refine ⟨{ (FHVAE c.model_params : TorchModel Θ) with state_dict := c.state_dict }, h.symm, rfl, ?_, ?_⟩
    · unfold load_checkpoint_file
      rw [h]
      rfl
    · unfold load_checkpoint_file
      rw [h]
      rfl
  · refine ⟨{ (SimpleFHVAE c.model_params : TorchModel Θ) with state_dict := c.state_dict }, h.symm, rfl, ?_, ?_⟩
    · unfold load_checkpoint_file
      rw [h]
      rfl
    · unfold load_checkpoint_file
      rw [h]
      rfl

/-- A concrete checkpoint with the recognized tag `"fhvae"`. -/
def fhvaeCheckpoint : Checkpoint ℚ ℚ ℚ ℚ :=
  ⟨1, 2, 3, "fhvae", ([4], [5], 6, 7, [8]), 9, 10, 11, 12⟩

/-- Witness for `load_checkpoint_file_spec` at a concrete checkpoint. -/
theorem load_checkpoint_file_spec_witness :
    ∃ m : TorchModel ℚ, m.model = fhvaeCheckpoint.model_type ∧
      m.state_dict = fhvaeCheckpoint.state_dict ∧
      load_checkpoint_file fhvaeCheckpoint false =
        .ok (.inl m, some fhvaeCheckpoint.values, some fhvaeCheckpoint.optimizer,
          some (fhvaeCheckpoint.epoch + 2), some fhvaeCheckpoint.best_val_lb,
          some fhvaeCheckpoint.summary_vals) ∧
      load_checkpoint_file fhvaeCheckpoint true =
        .ok (.inl m, none, none, none, none, none) :=
  load_checkpoint_file_spec fhvaeCheckpoint (Or.inl rfl)

/-- A concrete checkpoint whose model type tag is unrecognized. -/
def badTagCheckpoint : Checkpoint Unit Unit Unit Unit :=
  ⟨0, 0, 0, "foo", ([], [], 0, 0, []), (), (), (), ()⟩

/-- Claim C4 (code-bug evidence): on a checkpoint whose type tag is neither
recognized tag, the fallback path binds the raw tag string to `model` and
then still calls `model.load_state_dict(...)` unconditionally, so the call
raises `AttributeError` instead of completing and returning the tag string. -/
theorem load_checkpoint_unknown_tag_raises :
    load_checkpoint_file badTagCheckpoint false =
      .error (.attributeError "str object foo has no attribute load_state_dict") ∧
    load_checkpoint_file badTagCheckpoint true =
      .error (.attributeError "str object foo has no attribute load_state_dict") := by
  exact ⟨rfl, rfl⟩

/-- Reading a directory entry by file name (first binding wins). -/
def readFile? {Θ O S V : Type} : Dir Θ O S V → String →
    Option (Checkpoint Θ O S V)
  | [], _ => none
  | p :: t, name => if p.1 = name then some p.2 else readFile? t name

/-- Looking a name up in a directory after a file write: the written name
maps to the written record, all other names are untouched. -/
theorem readFile?_writeFile {Θ O S V : Type} (d : Dir Θ O S V) (name m : String)
    (c : Checkpoint Θ O S V) :
    readFile? (writeFile d name c) m = if m = name then some c else readFile? d m := by
  induction d with
  | nil =>
    by_cases h : m = name
    · simp [writeFile, readFile?, h]
    · simp [writeFile, readFile?, h, Ne.symm h]
  | cons p t ih =>
    by_cases hp : p.1 = name
    · by_cases h : m = name
      · simp [writeFile, readFile?, hp, h]
      · simp [writeFile, readFile?, hp, h, Ne.symm h,
          fun hpm : p.1 = m => h (hpm.symm.trans hp)]
    · by_cases hpm : p.1 = m
      · have hmn : ¬(m = name) := fun h => hp (hpm.trans h)
        simp [writeFile, readFile?, hp, hpm, hmn]
      · simp [writeFile, readFile?, hp, hpm, ih]

/-- An epoch file name is never equal to its `best_model_` duplicate. -/
theorem best_name_ne (s : String) :
    s ++ ".tar" ≠ "best_model_" ++ s ++ ".tar" := by
  intro h
  have hl := congrArg String.length h
  have h11 : ("best_model_" : String).length = 11 := rfl
  have h4 : (".tar" : String).length = 4 := rfl
  rw [String.length_append, String.length_append, String.length_append, h11, h4] at hl
  omega

/-- A concrete trained model used to instantiate checkpoint theorems. -/
def exampleModel : TorchModel ℚ :=
  ⟨"fhvae", [16], [16], 8, 8, [32], 3, true⟩

/-- Counterexample to claim C3: saving epoch 5 as best and then epoch 6 as
best leaves two `best_model_`-prefixed files in the run directory — the
best-file name embeds the epoch, so the earlier best file is not
replaced. -/
theorem save_checkpoint_two_best_files :
    ((save_checkpoint exampleModel (0 : ℚ) (0 : ℚ) (0 : ℚ) "run" 6 6 0 0
          (save_checkpoint exampleModel (0 : ℚ) (0 : ℚ) (0 : ℚ) "run" 5 5 0 0
            ([] : Dir ℚ ℚ ℚ ℚ))).filter
        (fun p => "best_model_".data.isPrefixOf p.1.data)).map Prod.fst =
      ["best_model_fhvae_run_e5.tar", "best_model_fhvae_run_e6.tar"] := by
  decide

/-- Claim C3 (amended): `save_checkpoint` duplicates the just-written epoch
checkpoint under a `best_model_` name exactly when the current epoch equals
the best-epoch argument; the duplicate has identical content.  However the
`best_model_` name embeds the epoch, so any file whose name differs from
the two names written — in particular an earlier epoch's `best_model_`
file — is left untouched, and a later best save adds a second
`best_model_`-prefixed file instead of replacing the first. -/
theorem save_checkpoint_best_copy_spec {Θ O S V : Type} (model : TorchModel Θ)
    (optimizer : O) (summary_list : S) (values_dict : V) (run_info : String)
    (epoch best_epoch : ℕ) (val_lb best_val_lb : ℚ) (d : Dir Θ O S V) :
    let checkpoint : Checkpoint Θ O S V :=
      ⟨best_val_lb, best_epoch, epoch, model.model,
        (model.z1_hus, model.z2_hus, model.z1_dim, model.z2_dim, model.x_hus),
        optimizer, model.state_dict, summary_list, values_dict⟩
    let f_str := model.model ++ "_" ++ run_info ++ "_e" ++ toString epoch
    let saved := save_checkpoint model optimizer summary_list values_dict
      run_info epoch best_epoch val_lb best_val_lb d
    readFile? saved ("best_model_" ++ f_str ++ ".tar") =
        (if best_epoch = epoch then some checkpoint
         else readFile? d ("best_model_" ++ f_str ++ ".tar")) ∧
      readFile? saved (f_str ++ ".tar") = some checkpoint ∧
      ∀ name : String, name ≠ f_str ++ ".tar" →
        name ≠ "best_model_" ++ f_str ++ ".tar" →
        readFile? saved name = readFile? d name := by
  intro checkpoint f_str saved
  have hne : f_str ++ ".tar" ≠ "best_model_" ++ f_str ++ ".tar" := by
    have := best_name_ne f_str
    simpa [String.append_assoc] using this
  by_cases hbe : best_epoch = epoch
  · have hsaved : saved =
        writeFile (writeFile d (f_str ++ ".tar") checkpoint)
          ("best_model_" ++ f_str ++ ".tar") checkpoint := by
      simp only [saved, save_checkpoint, if_pos hbe]
    refine ⟨?_, ?_, ?_⟩
    · rw [hsaved, readFile?_writeFile, if_pos rfl, if_pos hbe]
    · rw [hsaved, readFile?_writeFile, if_neg hne, readFile?_writeFile, if_pos rfl]
    · intro name h1 h2
      rw [hsaved, readFile?_writeFile, if_neg h2, readFile?_writeFile, if_neg h1]
  · have hsaved : saved = writeFile d (f_str ++ ".tar") checkpoint := by
      simp only [saved, save_checkpoint, if_neg hbe]
    refine ⟨?_, ?_, ?_⟩
    · rw [hsaved, readFile?_writeFile, if_neg (Ne.symm hne), if_neg hbe]
    · rw [hsaved, readFile?_writeFile, if_pos rfl]
    · intro name h1 h2
      rw [hsaved, readFile?_writeFile, if_neg h1]

/-- Witness for `save_checkpoint_best_copy_spec`: an unrelated file name is
untouched by a best-epoch save. -/
theorem save_checkpoint_best_copy_spec_witness :
    readFile? (save_checkpoint exampleModel (0 : ℚ) (0 : ℚ) (0 : ℚ) "run" 5 5 0 0
        ([] : Dir ℚ ℚ ℚ ℚ)) "other.tar" =
      readFile? ([] : Dir ℚ ℚ ℚ ℚ) "other.tar" :=
  (save_checkpoint_best_copy_spec exampleModel (0 : ℚ) (0 : ℚ) (0 : ℚ) "run" 5 5 0 0
      ([] : Dir ℚ ℚ ℚ ℚ)).2.2 "other.tar" (by decide) (by decide)

/-- Every entry of a log-compressed-and-clamped matrix is at least the
floor. -/
theorem le_of_mem_log_clamp (logq : ℚ → ℚ) (fl : ℚ) (M : List (List ℚ))
    (x : ℚ) (hx : x ∈ (log_clamp logq fl M).flatten) : fl ≤ x := by
  rw [log_clamp] at hx
  obtain ⟨l, hl, hxl⟩ := List.mem_flatten.mp hx
  obtain ⟨l', hl', rfl⟩ := List.mem_map.mp hl
  obtain ⟨v, hv, rfl⟩ := List.mem_map.mp hxl
  by_cases h : v < fl
  · rw [if_pos h]
  · rw [if_neg h]
    exact le_of_not_lt h

/-- Claim C7: with log compression enabled every entry of the returned
spectrogram is clamped up to the configured floor; the linear
magnitude-spectrogram path defaults that floor to −50 while the
mel-spectrogram path defaults it to −20, each path using its own default
when the floor is unspecified; and the mel projection is computed from the
unlogged magnitude spectrogram. -/
theorem rstft_melspec_log_floor_spec {C : Type} (lib : Lib C) (y : List ℚ)
    (sr : ℕ) :
    (∀ (n_fft : ℤ) (hop_t win_t : ℚ) (window : String) (pre log_floor x : ℚ),
      x ∈ (AudioUtils.rstft lib y sr n_fft hop_t win_t window pre true
            log_floor).flatten →
        log_floor ≤ x) ∧
    (∀ (n_fft : ℤ) (hop_t win_t : ℚ) (window : String) (pre : ℚ) (n_mels : ℕ)
        (norm_mel : String) (log_floor x : ℚ),
      x ∈ (AudioUtils.to_melspec lib y sr n_fft hop_t win_t window pre n_mels
            true norm_mel log_floor).flatten →
        log_floor ≤ x) ∧
    AudioUtils.rstft lib y sr =
      AudioUtils.rstft lib y sr 400 (1/100) (1/40) "hamming" (97/100) true (-50) ∧
    AudioUtils.to_melspec lib y sr =
      AudioUtils.to_melspec lib y sr 400 (1/100) (1/40) "hamming" (97/100) 80
        true "slaney" (-20) ∧
    (∀ (n_fft : ℤ) (hop_t win_t : ℚ) (window : String) (pre : ℚ) (n_mels : ℕ)
        (norm_mel : String) (log_floor : ℚ),
      AudioUtils.to_melspec lib y sr n_fft hop_t win_t window pre n_mels true
          norm_mel log_floor =
        log_clamp lib.logq log_floor
          (lib.melspectrogram sr
            (AudioUtils.rstft lib y sr n_fft hop_t win_t window pre false (-50))
            n_fft (sample_count sr hop_t) n_mels norm_mel)) := by
  refine ⟨?_, ?_, rfl, rfl, fun _ _ _ _ _ _ _ _ => rfl⟩
  · intro n_fft hop_t win_t window pre log_floor x hx
    exact le_of_mem_log_clamp lib.logq log_floor _ x hx
  · intro n_fft hop_t win_t window pre n_mels norm_mel log_floor x hx
    exact le_of_mem_log_clamp lib.logq log_floor _ x hx

/-- A concrete interpretation of the external primitives whose transform
output is the constant 1×1 matrix `[[3]]`. -/
def libConst : Lib ℚ where
  core_stft := fun _ _ _ _ _ => [[3]]
  absq := id
  logq := fun v => v - 1
  expq := fun v => v + 1
  melspectrogram := fun _ S _ _ _ _ => S
  rmse := fun y _ _ => y

/-- Witness for `rstft_melspec_log_floor_spec`: a concrete clamped entry of
each path is at least the respective default floor. -/
theorem rstft_melspec_log_floor_spec_witness :
    (-50 : ℚ) ≤ 2 ∧ (-20 : ℚ) ≤ 2 :=
  ⟨(rstft_melspec_log_floor_spec libConst [] 100).1 400 (1/100) (1/40)
      "hamming" 0 (-50) 2
      (by norm_num [AudioUtils.rstft, AudioUtils.stft, log_clamp, libConst,
        preemphasize]),
    (rstft_melspec_log_floor_spec libConst [] 100).2.1 400 (1/100) (1/40)
      "hamming" 0 80 "slaney" (-20) 2
      (by norm_num [AudioUtils.to_melspec, AudioUtils.rstft, AudioUtils.stft,
        log_clamp, libConst, preemphasize])⟩

/-- Entry `(j, i)` of `np_transpose M` is entry `(i, j)` of `M`, for
in-range indices. -/
theorem np_transpose_entry (M : List (List ℚ)) (i j : ℕ)
    (hi : i < M.length) (hj : j < (M.headD []).length) :
    ((np_transpose M).getD j []).getD i 0 = (M.getD i []).getD j 0 := by
  have hr : (np_transpose M)[j]? = some (M.map (fun row => row.getD j 0)) := by
    rw [np_transpose, List.getElem?_map, List.getElem?_range hj]
    rfl
  rw [List.getD_eq_getElem?_getD (np_transpose M) j [], hr, Option.getD_some]
  simp [List.getD_eq_getElem?_getD, List.getElem?_map,
    List.getElem?_eq_getElem hi]

/-- Claim C8: `generate_feat` returns the feature matrix in (frames,
channels) orientation — the `np.transpose` of the native (channels, frames)
matrix produced by `AudioUtils`, so entry `(j, i)` of the returned matrix
is entry `(i, j)` of the native one. -/
theorem generate_feat_transposed {C : Type} (lib : Lib C) (ftype : String)
    (audio_data : List ℚ) (sample_rate : ℕ) (win_t hop_t : ℚ) (n_mels : ℕ) :
    let native :=
      if ftype = "fbank" then
        AudioUtils.to_melspec lib audio_data sample_rate
          (sample_count sample_rate win_t) hop_t win_t "hamming" (97/100) n_mels
      else
        AudioUtils.rstft lib audio_data sample_rate
          (sample_count sample_rate win_t) hop_t win_t
    generate_feat lib ftype audio_data sample_rate win_t hop_t n_mels =
        np_transpose native ∧
      ∀ i j : ℕ, i < native.length → j < (native.headD []).length →
        ((generate_feat lib ftype audio_data sample_rate win_t hop_t
            n_mels).getD j []).getD i 0 =
          (native.getD i []).getD j 0 := by
  intro native
  have hg : generate_feat lib ftype audio_data sample_rate win_t hop_t n_mels =
      np_transpose native := by
    by_cases hf : ftype = "fbank"
    · simp only [generate_feat, native, hf, if_pos]
    · simp only [generate_feat, native, hf, if_neg, ite_false]
  refine ⟨hg, ?_⟩
  intro i j hi hj
  rw [hg]
  exact np_transpose_entry native i j hi hj

/-- Witness for `generate_feat_transposed`: on a 1×1 native matrix the
`(0, 0)` entries coincide. -/
theorem generate_feat_transposed_witness :
    ((generate_feat libConst "spec" [] 100 (1/40) (1/100) 80).getD 0 []).getD 0 0 =
      ((AudioUtils.rstft libConst [] 100 (sample_count 100 (1/40)) (1/100)
          (1/40)).getD 0 []).getD 0 0 := by
  refine (generate_feat_transposed libConst "spec" [] 100 (1/40) (1/100) 80).2
    0 0 ?_ ?_ <;>
  · rw [if_neg (by decide : ¬("spec" : String) = "fbank")]
    norm_num [AudioUtils.rstft, AudioUtils.stft, log_clamp, libConst,
      preemphasize]

/-- Claim C9: with no caller-pinned sample rate, the rate loaded for the
first utterance becomes the pinned rate for the rest of the run; once a
rate is pinned, the first utterance whose loaded rate differs makes the
loop raise the inconsistent-sample-rate error immediately, and no manifest
line is written for it or for any later utterance (lines already written
stay written). -/
theorem prepare_numpy_rate_pinning_spec {C : Type} (lib : Lib C)
    (load : String → Option ℕ → List ℚ × ℕ) (ftype : String)
    (win_t hop_t : ℚ) (n_mels : ℕ) (set_path : String) :
    (∀ (seq path : String) (rest : List (String × String)) (i : ℕ),
      prepare_numpy_lines lib load ftype win_t hop_t n_mels set_path
          ((seq, path) :: rest) none i =
        (let y_sr := load path none
         let tail := prepare_numpy_lines lib load ftype win_t hop_t n_mels
           set_path rest (some y_sr.2) (i + 1)
         ⟨(seq ++ " " ++ (set_path ++ "/" ++ seq ++ ".npy")) :: tail.featlines,
          (seq ++ " " ++ toString (generate_feat lib ftype y_sr.1 y_sr.2 win_t
            hop_t n_mels).length) :: tail.lenlines,
          tail.count, tail.err⟩)) ∧
    (∀ (sr : ℕ) (good : List (String × String)) (bad : String × String)
        (rest : List (String × String)) (i : ℕ),
      (∀ l ∈ good, (load l.2 (some sr)).2 = sr) →
      (load bad.2 (some sr)).2 ≠ sr →
      prepare_numpy_lines lib load ftype win_t hop_t n_mels set_path
          (good ++ bad :: rest) (some sr) i =
        ⟨good.map (fun l => l.1 ++ " " ++ (set_path ++ "/" ++ l.1 ++ ".npy")),
         good.map (fun l => l.1 ++ " " ++ toString (generate_feat lib ftype
           (load l.2 (some sr)).1 sr win_t hop_t n_mels).length),
         i + good.length,
         some ("Inconsistent sample rate (" ++ toString sr ++ " != " ++
           toString (load bad.2 (some sr)).2 ++ ".")⟩) ∧
    (∀ (first bad : String × String) (good rest : List (String × String)),
      (∀ l ∈ good, (load l.2 (some (load first.2 none).2)).2 =
        (load first.2 none).2) →
      (load bad.2 (some (load first.2 none).2)).2 ≠ (load first.2 none).2 →
      (prepare_numpy_lines lib load ftype win_t hop_t n_mels set_path
          (first :: (good ++ bad :: rest)) none 0).err =
          some ("Inconsistent sample rate (" ++
            toString (load first.2 none).2 ++ " != " ++
            toString (load bad.2 (some (load first.2 none).2)).2 ++ ".") ∧
        (prepare_numpy_lines lib load ftype win_t hop_t n_mels set_path
          (first :: (good ++ bad :: rest)) none 0).featlines.length =
          1 + good.length ∧
        (prepare_numpy_lines lib load ftype win_t hop_t n_mels set_path
          (first :: (good ++ bad :: rest)) none 0).lenlines.length =
          1 + good.length) := by
  have ha : ∀ (seq path : String) (rest : List (String × String)) (i : ℕ),
      prepare_numpy_lines lib load ftype win_t hop_t n_mels set_path
          ((seq, path) :: rest) none i =
        (let y_sr := load path none
         let tail := prepare_numpy_lines lib load ftype win_t hop_t n_mels
           set_path rest (some y_sr.2) (i + 1)
         ⟨(seq ++ " " ++ (set_path ++ "/" ++ seq ++ ".npy")) :: tail.featlines,
          (seq ++ " " ++ toString (generate_feat lib ftype y_sr.1 y_sr.2 win_t
            hop_t n_mels).length) :: tail.lenlines,
          tail.count, tail.err⟩) := by
    intro seq path rest i
    simp only [prepare_numpy_lines, Option.getD_none, ne_eq,
      not_true_eq_false, if_false, ite_false]
  have hb : ∀ (sr : ℕ) (good : List (String × String)) (bad : String × String)
      (rest : List (String × String)) (i : ℕ),
      (∀ l ∈ good, (load l.2 (some sr)).2 = sr) →
      (load bad.2 (some sr)).2 ≠ sr →
      prepare_numpy_lines lib load ftype win_t hop_t n_mels set_path
          (good ++ bad :: rest) (some sr) i =
        ⟨good.map (fun l => l.1 ++ " " ++ (set_path ++ "/" ++ l.1 ++ ".npy")),
         good.map (fun l => l.1 ++ " " ++ toString (generate_feat lib ftype
           (load l.2 (some sr)).1 sr win_t hop_t n_mels).length),
         i + good.length,
         some ("Inconsistent sample rate (" ++ toString sr ++ " != " ++
           toString (load bad.2 (some sr)).2 ++ ".")⟩ := by
    intro sr good bad rest i hgood hbad
    induction good generalizing i with
    | nil =>
      obtain ⟨bseq, bpath⟩ := bad
      simp only [List.nil_append, prepare_numpy_lines, Option.getD_some]
      rw [if_pos (Ne.symm hbad)]
      simp
    | cons l goodt ih =>
      obtain ⟨lseq, lpath⟩ := l
      have hl : (load lpath (some sr)).2 = sr :=
        hgood (lseq, lpath) (List.mem_cons_self _ _)
      have hrest : ∀ l' ∈ goodt, (load l'.2 (some sr)).2 = sr :=
        fun l' h => hgood l' (List.mem_cons_of_mem _ h)
      simp only [List.cons_append, prepare_numpy_lines, Option.getD_some]
      rw [hl, if_neg (fun h => h rfl)]
      simp only [List.append_eq, ih (i + 1) hrest, List.map_cons,
        List.length_cons, PrepResult.mk.injEq, hl, true_and, and_true]
      omega
  refine ⟨ha, hb, ?_⟩
  intro first bad good rest hgood hbad
  obtain ⟨fseq, fpath⟩ := first
  rw [ha fseq fpath (good ++ bad :: rest) 0]
  simp only [hb _ good bad rest 1 hgood hbad, List.length_cons, List.length_map]
  refine ⟨?_, ?_, ?_⟩ <;> first | rfl | omega | trivial

/-- A concrete `librosa.load` interpretation: utterance file `"a"` has
native rate 16000, everything else 8000. -/
def loadW : String → Option ℕ → List ℚ × ℕ :=
  fun path _ => ([], if path = "a" then 16000 else 8000)

/-- Witness for `prepare_numpy_rate_pinning_spec`: with rate 16000 pinned,
a good line for `"a"` is written, the mismatching line for `"b"` raises the
inconsistent-sample-rate error, and nothing later is written. -/
theorem prepare_numpy_rate_pinning_spec_witness :
    prepare_numpy_lines libConst loadW "spec" (1/40) (1/100) 80 "out"
        [("u1", "a"), ("u2", "b")] (some 16000) 0 =
      ⟨["u1 out/u1.npy"], ["u1 1"], 1,
        some "Inconsistent sample rate (16000 != 8000."⟩ := by
  rw [show ([("u1", "a"), ("u2", "b")] : List (String × String)) =
      [("u1", "a")] ++ ("u2", "b") :: [] from rfl,
    (prepare_numpy_rate_pinning_spec libConst loadW "spec" (1/40) (1/100) 80
      "out").2.1 16000 [("u1", "a")] ("u2", "b") [] 0 (by decide) (by decide)]
  decide

/-- The running count of occurrences of key `y` in a pair stream, as the
`float` count accumulated in `nseg_table`. -/
def cntq {ι : Type} [DecidableEq ι] (y : ι) (P : List (ι × ℚ)) : ℚ :=
  ((P.filter (fun p => p.1 = y)).length : ℚ)

/-- The running sum of the values paired with key `y` in a pair stream, as
accumulated in `z2_sum_table`. -/
def smv {ι : Type} [DecidableEq ι] (y : ι) (P : List (ι × ℚ)) : ℚ :=
  ((P.filter (fun p => p.1 = y)).map Prod.snd).sum

/-- How one `+=` update changes what `dd_find` sees. -/
theorem dd_find_dd_incr {ι : Type} [DecidableEq ι] (t : List (ι × ℚ)) (k : ι)
    (v : ℚ) (y : ι) :
    dd_find (dd_incr t k v) y =
      if y = k then some ((dd_find t k).getD 0 + v) else dd_find t y := by
  induction t with
  | nil =>
    by_cases h : y = k
    · simp [dd_incr, dd_find, h]
    · simp [dd_incr, dd_find, h, Ne.symm h]
  | cons p t ih =>
    obtain ⟨a, b⟩ := p
    by_cases hak : a = k
    · subst hak
      by_cases hy : y = a
      · subst hy
        simp [dd_incr, dd_find]
      · have hay : ¬(a = y) := fun h => hy h.symm
        simp [dd_incr, dd_find, hy, hay]
    · by_cases hay : a = y
      · subst hay
        simp [dd_incr, dd_find, hak, fun h : a = k => hak h]
      · simp [dd_incr, dd_find, hak, hay, ih]

/-- What `dd_find` sees in the two tables after accumulating a pair
stream. -/
theorem dd_find_accum_pairs {ι : Type} [DecidableEq ι] (P : List (ι × ℚ)) :
    ∀ (n s : List (ι × ℚ)) (y : ι),
      dd_find (accum_pairs (n, s) P).1 y =
        (if y ∈ P.map Prod.fst ∨ (dd_find n y).isSome = true
         then some ((dd_find n y).getD 0 + cntq y P) else none) ∧
      dd_find (accum_pairs (n, s) P).2 y =
        (if y ∈ P.map Prod.fst ∨ (dd_find s y).isSome = true
         then some ((dd_find s y).getD 0 + smv y P) else none) := by
  induction P with
  | nil =>
    intro n s y
    constructor
    · cases h : dd_find n y <;> simp [accum_pairs, cntq, smv, h]
    · cases h : dd_find s y <;> simp [accum_pairs, cntq, smv, h]
  | cons p P ih =>
    obtain ⟨a, b⟩ := p
    intro n s y
    have hstep : accum_pairs (n, s) ((a, b) :: P) =
        accum_pairs (dd_incr n a 1, dd_incr s a b) P := rfl
    rw [hstep]
    have h1 := (ih (dd_incr n a 1) (dd_incr s a b) y).1
    have h2 := (ih (dd_incr n a 1) (dd_incr s a b) y).2
    rw [dd_find_dd_incr n a 1 y] at h1
    rw [dd_find_dd_incr s a b y] at h2
    by_cases hy : y = a
    · subst hy
      have hcnt : cntq y ((y, b) :: P) = cntq y P + 1 := by
        simp [cntq, List.filter_cons]
      have hsm : smv y ((y, b) :: P) = smv y P + b := by
        simp [smv, List.filter_cons]
        ring
      simp only [if_pos rfl, Option.isSome_some, or_true, if_true,
        Option.getD_some] at h1 h2
      constructor
      · rw [h1, if_pos (Or.inl (by simp)), hcnt]
        congr 1
        ring
      · rw [h2, if_pos (Or.inl (by simp)), hsm]
        congr 1
        ring
    · have hay : ¬(a = y) := fun h => hy h.symm
      have hmem : ∀ {q : Prop}, (y ∈ (List.map Prod.fst ((a, b) :: P)) ∨ q) ↔
          (y ∈ List.map Prod.fst P ∨ q) := by
        intro q
        simp only [List.map_cons, List.mem_cons]
        constructor
        · rintro ((h | h) | h)
          · exact absurd h hy
          · exact Or.inl h
          · exact Or.inr h
        · rintro (h | h)
          · exact Or.inl (Or.inr h)
          · exact Or.inr h
      constructor
      · rw [h1, if_neg hy]
        have hcnt : cntq y ((a, b) :: P) = cntq y P := by
          simp [cntq, List.filter_cons, hay]
        rw [hcnt]
        exact (if_congr hmem rfl rfl).symm
      · rw [h2, if_neg hy]
        have hsm : smv y ((a, b) :: P) = smv y P := by
          simp [smv, List.filter_cons, hay]
        rw [hsm]
        exact (if_congr hmem rfl rfl).symm

/-- Accumulating a concatenation accumulates the parts in order. -/
theorem accum_pairs_append {ι : Type} [DecidableEq ι] (P Q : List (ι × ℚ)) :
    ∀ t, accum_pairs t (P ++ Q) = accum_pairs (accum_pairs t P) Q := by
  induction P with
  | nil =>
    intro t
    obtain ⟨n, s⟩ := t
    rfl
  | cons p P ih =>
    obtain ⟨a, b⟩ := p
    intro t
    obtain ⟨n, s⟩ := t
    simp only [List.cons_append]
    rw [show accum_pairs (n, s) ((a, b) :: (P ++ Q)) =
        accum_pairs (dd_incr n a 1, dd_incr s a b) (P ++ Q) from rfl,
      show accum_pairs (n, s) ((a, b) :: P) =
        accum_pairs (dd_incr n a 1, dd_incr s a b) P from rfl]
    exact ih _

/-- The per-batch fold of the estimator equals one accumulation over the
flattened pair stream. -/
theorem foldl_accum_pairs {ι B : Type} [DecidableEq ι] (f : B → List (ι × ℚ))
    (bs : List B) :
    ∀ t : List (ι × ℚ) × List (ι × ℚ),
      bs.foldl (fun tabs b => accum_pairs tabs (f b)) t =
        accum_pairs t (bs.flatMap f) := by
  induction bs with
  | nil =>
    intro t
    obtain ⟨n, s⟩ := t
    rfl
  | cons b bs ih =>
    intro t
    simp only [List.foldl_cons, List.flatMap_cons]
    rw [ih, accum_pairs_append]

/-- `dd_find` through the value-map that builds `mu2_dict` from
`nseg_table`. -/
theorem dd_find_map_val {ι : Type} [DecidableEq ι] (g : ι → ℚ → ℚ)
    (t : List (ι × ℚ)) (y : ι) :
    dd_find (t.map (fun p => (p.1, g p.1 p.2))) y =
      (dd_find t y).map (g y) := by
  induction t with
  | nil => rfl
  | cons p t ih =>
    obtain ⟨a, b⟩ := p
    by_cases h : a = y
    · subst h
      simp [dd_find]
    · simp [dd_find, h, ih]

/-- Claim C2: `estimate_mu2_dict` switches the model into eval mode, its
keys are exactly the sequence ids observed in the loader (an id that never
appears gets no estimate), and each observed id maps to the running sum of
its latent codes divided by the running count plus
`r = exp(pz2 log-variance) / exp(pmu2 log-variance)`. -/
theorem estimate_mu2_dict_spec {ι F N : Type} [DecidableEq ι] (expq : ℚ → ℚ)
    (model : EstModel ι F N) (loader : Loader ι F N) (num_seqs : ℕ)
    (H : ∀ b ∈ loader.batches,
      (model.qz2_x b.features b.idxs loader.dataset_len b.nsegs).length =
        b.idxs.length) :
    let pairs := loader.batches.flatMap (fun b =>
      b.idxs.zip (model.qz2_x b.features b.idxs loader.dataset_len b.nsegs))
    let r := expq model.pz2_logvar / expq model.pmu2_logvar
    ((estimate_mu2_dict expq model loader num_seqs).2).training = false ∧
    (∀ y : ι,
      (dd_find (estimate_mu2_dict expq model loader num_seqs).1 y).isSome =
          true ↔
        y ∈ loader.batches.flatMap Batch.idxs) ∧
    (∀ y : ι, y ∈ loader.batches.flatMap Batch.idxs →
      dd_find (estimate_mu2_dict expq model loader num_seqs).1 y =
        some (smv y pairs / (cntq y pairs + r))) := by
  intro pairs r
  have hfold := foldl_accum_pairs
    (fun b : Batch ι F N =>
      b.idxs.zip (model.qz2_x b.features b.idxs loader.dataset_len b.nsegs))
    loader.batches ([], [])
  set g : ι → ℚ → ℚ := fun a c =>
    (dd_find (accum_pairs ([], []) pairs).2 a).getD 0 / (c + r) with hg
  have hres1 : (estimate_mu2_dict expq model loader num_seqs).1 =
      (accum_pairs ([], []) pairs).1.map (fun p => (p.1, g p.1 p.2)) := by
    show (loader.batches.foldl
        (fun tabs b => accum_pairs tabs (b.idxs.zip
          (model.qz2_x b.features b.idxs loader.dataset_len b.nsegs)))
        ([], [])).1.map
        (fun p => (p.1,
          (dd_find (loader.batches.foldl
            (fun tabs b => accum_pairs tabs (b.idxs.zip
              (model.qz2_x b.features b.idxs loader.dataset_len b.nsegs)))
            ([], [])).2 p.1).getD 0 / (p.2 + r))) = _
    rw [hfold]
  have hn : ∀ y, dd_find (accum_pairs ([], []) pairs).1 y =
      (if y ∈ pairs.map Prod.fst then some (cntq y pairs) else none) := by
    intro y
    rw [(dd_find_accum_pairs pairs [] [] y).1]
    refine if_congr ?_ ?_ rfl
    · simp [dd_find]
    · simp [dd_find]
  have hs : ∀ y, dd_find (accum_pairs ([], []) pairs).2 y =
      (if y ∈ pairs.map Prod.fst then some (smv y pairs) else none) := by
    intro y
    rw [(dd_find_accum_pairs pairs [] [] y).2]
    refine if_congr ?_ ?_ rfl
    · simp [dd_find]
    · simp [dd_find]
  have hfst : pairs.map Prod.fst = loader.batches.flatMap Batch.idxs := by
    rw [List.map_flatMap]
    exact List.flatMap_congr (fun b hb =>
      List.map_fst_zip _ _ (le_of_eq (H b hb).symm))
  refine ⟨rfl, ?_, ?_⟩
  · intro y
    rw [hres1, dd_find_map_val g, hn y, ← hfst]
    by_cases hmem : y ∈ pairs.map Prod.fst
    · simp [hmem]
    · simp [hmem]
  · intro y hy
    have hmem : y ∈ pairs.map Prod.fst := by
      rw [hfst]
      exact hy
    rw [hres1, dd_find_map_val g, hn y, if_pos hmem]
    simp only [Option.map_some, hg]
    rw [hs y, if_pos hmem, Option.getD_some]
    simp

/-- A concrete estimator model over natural-number sequence ids whose
forward pass returns one latent code per batch element. -/
def estModelW : EstModel ℕ Unit Unit where
  qz2_x := fun _ idxs _ _ => idxs.map (fun n => (n : ℚ))
  pz2_logvar := 2
  pmu2_logvar := 1
  training := true

/-- A concrete two-batch loader: id 7 appears twice, id 9 once. -/
def loaderW : Loader ℕ Unit Unit where
  batches := [⟨[7, 7], (), ()⟩, ⟨[9], (), ()⟩]
  dataset_len := 3

/-- Witness for `estimate_mu2_dict_spec`: after the call on a concrete
model and loader, the returned model is in eval mode. -/
theorem estimate_mu2_dict_spec_witness :
    ((estimate_mu2_dict (fun v => v + 1) estModelW loaderW 3).2).training =
      false :=
  (estimate_mu2_dict_spec (fun v => v + 1) estModelW loaderW 3 (by decide)).1
